import Mathlib

/-!
Shallow embedding of the 2048 game core in `src/script.js`.

The grid is a 4×4 matrix of naturals (`0` = empty cell).  The purely
presentational parts of the script (DOM rendering, CSS animation timing,
haptic feedback, the `mergedMap` animation table, message strings, and the
persisted best score) are not modelled; everything that touches the game
state is.

`Math.random()` produces a real in `[0,1)`.  Each draw is modelled as an
exact rational `num/den` (a `Rnd` value); the JS expression
`Math.floor(Math.random() * empty.length)` becomes the exact natural
division `num * empty.length / den`, and the test `Math.random() < 0.9`
becomes `10 * num < 9 * den`.  Theorem `addRandomTile_spec` (claim C7)
proves both encodings agree with the rational-valued originals.
-/

namespace Game2048

/-- A grid is a list of rows of naturals; `script.js` line 10: `SIZE = 4`. -/
abbrev Grid := List (List Nat)

/-- `SIZE` constant of `script.js`. -/
def SIZE : Nat := 4

/-- Read `grid[r][c]`; out-of-range reads (never performed by the source on
well-formed grids) default to 0. -/
def cell (g : Grid) (r c : Nat) : Nat := (g.getD r []).getD c 0

/-- Write `grid[r][c] = v` (`script.js` line 78). -/
def setCell (g : Grid) (r c v : Nat) : Grid :=
  g.set r ((g.getD r []).set c v)

/-- The grid really is a 4×4 matrix. -/
def wfGrid (g : Grid) : Prop := g.length = 4 ∧ ∀ row ∈ g, row.length = 4

instance : DecidablePred wfGrid := fun g => by
  unfold wfGrid; infer_instance

/-- Result object of `slideCombineRow` (`script.js` line 98). -/
structure SlideResult where
  newRow : List Nat
  mergedIndices : List Nat
  gained : Nat
deriving DecidableEq, Repr

/-- The merge loop of `slideCombineRow` (`script.js` lines 89-96): scan the
compacted array left to right; on `arr[i] === arr[i+1]` double `arr[i]`, add
it to `gained`, splice out `arr[i+1]`, record index `i`, and continue at
`i+1` (so the doubled entry is never compared again).  The first argument is
the running index `i`; the returned components are the final array, the
pushed `mergedIndices`, and `gained`. -/
def mergeRec (idx : Nat) : List Nat → List Nat × List Nat × Nat
  | [] => ([], [], 0)
  | [a] => ([a], [], 0)
  | a :: b :: rest =>
    if a = b then
      let r := mergeRec (idx + 1) rest
      (a * 2 :: r.1, idx :: r.2.1, a * 2 + r.2.2)
    else
      let r := mergeRec (idx + 1) (b :: rest)
      (a :: r.1, r.2.1, r.2.2)

/-- `while (arr.length < SIZE) arr.push(0)` (`script.js` line 97). -/
def padTo4 (l : List Nat) : List Nat := l ++ List.replicate (SIZE - l.length) 0

/-- `slideCombineRow` (`script.js` lines 84-99): compress the non-zero
entries, run the merge loop, pad with zeros to length `SIZE`. -/
def slideCombineRow (row : List Nat) : SlideResult :=
  let arr := row.filter (fun v => v != 0)
  let r := mergeRec 0 arr
  { newRow := padTo4 r.1, mergedIndices := r.2.1, gained := r.2.2 }

/-! ### Specification-side line transform (for claim C1)

The following definitions transcribe §4.1 of the specification word for
word, independently of the splice-based loop above: a single left-to-right
scan over the compacted sequence that replaces each adjacent equal pair by
one doubled entry (marked `true`), never reconsidering a doubled entry;
`mergedIndices` are the positions *in the output* carrying a mark, and
`gained` is the sum of the doubled values. -/

/-- Spec scan: output entries paired with a "this entry is a merge" mark. -/
def specMergePairs : List Nat → List (Nat × Bool)
  | [] => []
  | [a] => [(a, false)]
  | a :: b :: rest =>
    if a = b then (a * 2, true) :: specMergePairs rest
    else (a, false) :: specMergePairs (b :: rest)

/-- Positions (counting from `start`) of the marked entries. -/
def flaggedIdxs (start : Nat) : List (Nat × Bool) → List Nat
  | [] => []
  | p :: rest =>
    if p.2 then start :: flaggedIdxs (start + 1) rest
    else flaggedIdxs (start + 1) rest

/-- §4.1 of the spec, assembled: compact, scan-merge, pad to length 4;
merged indices are output positions, gained is the sum of doubled values. -/
def specCompactAndMerge (line : List Nat) : SlideResult :=
  let ps := specMergePairs (line.filter (fun v => v != 0))
  { newRow := padTo4 (ps.map (fun p => p.1))
    mergedIndices := flaggedIdxs 0 ps
    gained := ((ps.filter (fun p => p.2)).map (fun p => p.1)).sum }

/-- The splice loop and the spec scan compute the same triple (the loop's
pushed index `i` is exactly the output position of the merged entry, since
later splices only move later entries). -/
theorem mergeRec_eq_spec : ∀ (l : List Nat) (idx : Nat),
    mergeRec idx l =
      ((specMergePairs l).map (fun p => p.1),
        flaggedIdxs idx (specMergePairs l),
        (((specMergePairs l).filter (fun p => p.2)).map (fun p => p.1)).sum)
  | [], _ => rfl
  | [a], _ => rfl
  | a :: b :: rest, idx => by
    by_cases h : a = b
    · simp only [mergeRec, specMergePairs, if_pos h,
        mergeRec_eq_spec rest (idx + 1)]
      simp [flaggedIdxs]
    · simp only [mergeRec, specMergePairs, if_neg h,
        mergeRec_eq_spec (b :: rest) (idx + 1)]
      simp [flaggedIdxs]

/-! ### Grid-level move transforms -/

/-- Column extraction `col = [grid[0][c], grid[1][c], grid[2][c], grid[3][c]]`
for every `c` (`script.js` lines 164-166); for a 4×4 grid this is the
transpose, and writing the processed columns back cell by cell
(`grid[r][c] = newRow[r]`, lines 168-171) is the transpose of the list of
new columns. -/
def transposeG (g : Grid) : Grid :=
  (List.range SIZE).map fun c => (List.range SIZE).map fun r => cell g r c

/-- `moveLeftCore` (`script.js` lines 102-127): per-row slide+combine; the
row-level `moved` test compares each original row with its replacement
(the source compares JSON serialisations, value equality for number
arrays); `gained` totals are added to the score by the caller model
(the source calls `bumpScore` here). -/
def moveLeftCore (g : Grid) : Grid × Bool × Nat :=
  let results := g.map slideCombineRow
  let g' := results.map (fun r => r.newRow)
  let moved := (g.zip g').any fun p => p.1 != p.2
  (g', moved, (results.map (fun r => r.gained)).sum)

/-- `moveRightCore` (`script.js` lines 129-157): reverse each row, slide
left, reverse back. -/
def moveRightCore (g : Grid) : Grid × Bool × Nat :=
  let results := g.map fun row => slideCombineRow row.reverse
  let g' := results.map (fun r => r.newRow.reverse)
  let moved := (g.zip g').any fun p => p.1 != p.2
  (g', moved, (results.map (fun r => r.gained)).sum)

/-- `moveUpCore` (`script.js` lines 159-184): extract each column, slide
left, write back; `moved` is the cellwise comparison `grid[r][c] !== newRow[r]`
over `r, c < SIZE`. -/
def moveUpCore (g : Grid) : Grid × Bool × Nat :=
  let cols := transposeG g
  let results := cols.map slideCombineRow
  let newCols := results.map (fun r => r.newRow)
  let g' := transposeG newCols
  let moved := (List.range SIZE).any fun r => (List.range SIZE).any fun c =>
    cell g r c != cell g' r c
  (g', moved, (results.map (fun r => r.gained)).sum)

/-- `moveDownCore` (`script.js` lines 186-216): like up, but each column is
reversed before the slide and the result reversed back. -/
def moveDownCore (g : Grid) : Grid × Bool × Nat :=
  let cols := transposeG g
  let results := cols.map fun col => slideCombineRow col.reverse
  let newCols := results.map (fun r => r.newRow.reverse)
  let g' := transposeG newCols
  let moved := (List.range SIZE).any fun r => (List.range SIZE).any fun c =>
    cell g r c != cell g' r c
  (g', moved, (results.map (fun r => r.gained)).sum)

/-- Direction dispatch of `handleMove` (`script.js` lines 251-255): four
guarded calls on the direction string; any other string leaves the grid
untouched with `moved = false`. -/
def moveCore (direction : String) (g : Grid) : Grid × Bool × Nat :=
  if direction = "left" then moveLeftCore g
  else if direction = "right" then moveRightCore g
  else if direction = "up" then moveUpCore g
  else if direction = "down" then moveDownCore g
  else (g, false, 0)

/-! ### Random tile spawning -/

/-- One `Math.random()` draw, modelled as the exact rational `num/den`
(the source's draw lies in `[0,1)`, i.e. `num < den`). -/
structure Rnd where
  num : Nat
  den : Nat
deriving DecidableEq, Repr

/-- The empty-cell list built by `addRandomTile` (`script.js` lines 67-72),
in the same row-major push order. -/
def emptyCells (g : Grid) : List (Nat × Nat) :=
  (List.range SIZE).flatMap fun r => (List.range SIZE).filterMap fun c =>
    if cell g r c = 0 then some (r, c) else none

/-- `addRandomTile` (`script.js` lines 66-81): full board is a no-op
returning no position; otherwise the cell `empty[Math.floor(rnd1 * empty.length)]`
is set to 2 when `rnd2 < 0.9` and to 4 otherwise, and its position is
returned.  With `rnd1 = num/den`, `Math.floor(num/den * L)` is the natural
division `num * L / den`, and `rnd2 < 0.9` is `10 * num < 9 * den`
(both equivalences are proved in `addRandomTile_spec`). -/
def addRandomTile (g : Grid) (rnd1 rnd2 : Rnd) : Grid × Option (Nat × Nat) :=
  let empty := emptyCells g
  if empty.isEmpty then (g, none)
  else
    let pos := empty.getD (rnd1.num * empty.length / rnd1.den) (0, 0)
    (setCell g pos.1 pos.2 (if 10 * rnd2.num < 9 * rnd2.den then 2 else 4),
      some pos)

/-! ### Game state and its operations -/

/-- The module-level mutable state of `script.js` (lines 11-18) that the
game logic reads or writes: `grid`, `score`, the undo snapshot
(`lastGrid`/`lastScore`), the spawn position `lastAddedPos`, and the two
terminal flags.  `mergedMap`, the DOM, and the persisted best score are
presentation-only and not modelled. -/
structure GameState where
  grid : Grid
  score : Nat
  lastGrid : Option Grid
  lastScore : Nat
  lastAddedPos : Option (Nat × Nat)
  gameOver : Bool
  gameWon : Bool
deriving DecidableEq, Repr

/-- `hasMoves` (`script.js` lines 289-298): some empty cell, or some
horizontally or vertically adjacent equal pair. -/
def hasMoves (g : Grid) : Bool :=
  (List.range SIZE).any fun r => (List.range SIZE).any fun c =>
    cell g r c == 0
      || (decide (c < SIZE - 1) && (cell g r c == cell g r (c + 1)))
      || (decide (r < SIZE - 1) && (cell g r c == cell g (r + 1) c))

/-- `checkGameState` (`script.js` lines 300-312): win test (a cell equals
2048 and the game was not already won) before the game-over test
(`!hasMoves()`); otherwise only the message is cleared. -/
def checkGameState (s : GameState) : GameState :=
  if (s.grid.any fun row => row.contains 2048) && !s.gameWon then
    { s with gameWon := true }
  else if !hasMoves s.grid then
    { s with gameOver := true }
  else s

/-- `handleMove` (`script.js` lines 245-270): reject when won or over; run
the direction's core (which rewrites the grid and adds `gained` to the
score); if the grid changed, store the pre-move snapshot, spawn a tile and
re-evaluate the terminal flags; otherwise clear `lastAddedPos`. -/
def handleMove (s : GameState) (direction : String) (rnd1 rnd2 : Rnd) :
    GameState :=
  if s.gameOver || s.gameWon then s
  else if (moveCore direction s.grid).2.1 then
    checkGameState
      { grid := (addRandomTile (moveCore direction s.grid).1 rnd1 rnd2).1
        score := s.score + (moveCore direction s.grid).2.2
        lastGrid := some s.grid
        lastScore := s.score
        lastAddedPos := (addRandomTile (moveCore direction s.grid).1 rnd1 rnd2).2
        gameOver := s.gameOver
        gameWon := s.gameWon }
  else
    { s with
        grid := (moveCore direction s.grid).1
        score := s.score + (moveCore direction s.grid).2.2
        lastAddedPos := none }

/-- `undoMove` (`script.js` lines 273-286): no-op without a snapshot;
otherwise restore grid and score, clear the snapshot and both terminal
flags. -/
def undoMove (s : GameState) : GameState :=
  match s.lastGrid with
  | none => s
  | some g =>
    { grid := g
      score := s.lastScore
      lastGrid := none
      lastScore := 0
      lastAddedPos := none
      gameOver := false
      gameWon := false }

/-- `initGame` (`script.js` lines 49-63): all-zero grid, zero score, no
snapshot, flags cleared, then two random tiles. -/
def initGame (a1 a2 b1 b2 : Rnd) : GameState :=
  let g0 : Grid := List.replicate SIZE (List.replicate SIZE 0)
  let sp1 := addRandomTile g0 a1 a2
  let sp2 := addRandomTile sp1.1 b1 b2
  { grid := sp2.1
    score := 0
    lastGrid := none
    lastScore := 0
    lastAddedPos := sp2.2
    gameOver := false
    gameWon := false }

/-- Observer: the `moved` flag a `handleMove` call computes (false when the
call is rejected in the terminal states). -/
def moveChanged (s : GameState) (direction : String) : Bool :=
  if s.gameOver || s.gameWon then false
  else (moveCore direction s.grid).2.1

/-- Total value on the board. -/
def gridSum (g : Grid) : Nat := (g.map List.sum).sum

/-- Observer: the value of the tile a move spawned (the cell now stored at
`lastAddedPos`), 0 when no tile was spawned. -/
def spawnedValue (s : GameState) : Nat :=
  match s.lastAddedPos with
  | none => 0
  | some p => cell s.grid p.1 p.2

/-- States reachable from initialisation through the public operations
restart (`initGame`), `handleMove` and `undoMove`, for every possible
random draw and direction string. -/
inductive Reachable : GameState → Prop
  | init (a1 a2 b1 b2 : Rnd) : Reachable (initGame a1 a2 b1 b2)
  | move (s : GameState) (direction : String) (rnd1 rnd2 : Rnd) :
      Reachable s → Reachable (handleMove s direction rnd1 rnd2)
  | undo (s : GameState) : Reachable s → Reachable (undoMove s)

/-! ### Line-transform lemmas -/

/-- Every entry the merge loop outputs is nonzero when every input entry
is. -/
theorem mergeRec_nonzero : ∀ (l : List Nat) (i : Nat),
    (∀ x ∈ l, x ≠ 0) → ∀ x ∈ (mergeRec i l).1, x ≠ 0
  | [], _ => by simp [mergeRec]
  | [a], _ => by simp [mergeRec]
  | a :: b :: rest, i => by
    intro h x hx
    by_cases hab : a = b
    · simp only [mergeRec, if_pos hab] at hx
      rcases List.mem_cons.1 hx with h1 | h1
      · have ha : a ≠ 0 := h a (by simp)
        omega
      · exact mergeRec_nonzero rest (i + 1) (fun y hy => h y (by simp [hy])) x h1
    · simp only [mergeRec, if_neg hab] at hx
      rcases List.mem_cons.1 hx with h1 | h1
      · exact h1 ▸ h a (by simp)
      · exact mergeRec_nonzero (b :: rest) (i + 1)
          (fun y hy => h y (List.mem_cons_of_mem a hy)) x h1

/-- Filtering out zeros from an all-nonzero list padded with zeros gives
back the list. -/
theorem padTo4_filter (l : List Nat) (h : ∀ x ∈ l, x ≠ 0) :
    (padTo4 l).filter (fun v => v != 0) = l := by
  unfold padTo4
  rw [List.filter_append]
  have h1 : l.filter (fun v => v != 0) = l :=
    List.filter_eq_self.2 (fun a ha => by simpa using h a ha)
  have h2 : (List.replicate (SIZE - l.length) (0 : Nat)).filter
      (fun v => v != 0) = [] := by
    apply List.filter_eq_nil_iff.2
    intro a ha
    simp [List.eq_of_mem_replicate ha]
  rw [h1, h2, List.append_nil]

/-- Adjacent-equal-nonzero test on a line (the condition under which a
slide-combine pass merges something). -/
def hasAdjEqNonzero : List Nat → Bool
  | a :: b :: rest => (a == b && a != 0) || hasAdjEqNonzero (b :: rest)
  | _ => false

/-- The test only looks at adjacent pairs, so it is monotone under
dropping a suffix. -/
theorem hasAdjEqNonzero_of_append : ∀ (l t : List Nat),
    hasAdjEqNonzero (l ++ t) = false → hasAdjEqNonzero l = false
  | [], _, _ => rfl
  | [_], _, _ => rfl
  | a :: b :: rest, t, h => by
    simp only [List.cons_append, hasAdjEqNonzero, Bool.or_eq_false_iff] at h ⊢
    exact ⟨h.1, hasAdjEqNonzero_of_append (b :: rest) t h.2⟩

/-- On an all-nonzero line with no adjacent equal pair the merge loop is
the identity, gains nothing and records nothing. -/
theorem mergeRec_of_noAdj : ∀ (l : List Nat) (i : Nat),
    (∀ x ∈ l, x ≠ 0) → hasAdjEqNonzero l = false → mergeRec i l = (l, [], 0)
  | [], _, _, _ => rfl
  | [_], _, _, _ => rfl
  | a :: b :: rest, i, hnz, hadj => by
    simp only [hasAdjEqNonzero, Bool.or_eq_false_iff, Bool.and_eq_false_iff] at hadj
    have hab : a ≠ b := by
      rcases hadj.1 with h | h
      · simpa using h
      · have := hnz a (by simp)
        simp at h
        omega
    simp only [mergeRec, if_neg hab]
    rw [mergeRec_of_noAdj (b :: rest) (i + 1)
      (fun y hy => hnz y (List.mem_cons_of_mem a hy)) hadj.2]

/-- Claim C1: `slideCombineRow` realises §4.1 of the spec — compaction
preserving order of the nonzero entries, a single left-to-right merge pass
doubling each adjacent equal pair exactly once (output indices recorded in
`mergedIndices`, doubled values summed into `gained`, no re-merge of a
freshly doubled entry), right-padding with zeros to length 4 — and in
particular maps `[2,2,2,2]` to `[4,4,0,0]` with merged indices `{0,1}` and
gain 8, and `[0,2,0,2]` to `[4,0,0,0]` with merged indices `{0}` and
gain 4. -/
theorem slideCombineRow_meets_spec :
    (∀ row : List Nat, slideCombineRow row = specCompactAndMerge row) ∧
    slideCombineRow [2, 2, 2, 2] =
      { newRow := [4, 4, 0, 0], mergedIndices := [0, 1], gained := 8 } ∧
    slideCombineRow [0, 2, 0, 2] =
      { newRow := [4, 0, 0, 0], mergedIndices := [0], gained := 4 } := by
  refine ⟨fun row => ?_, by decide, by decide⟩
  simp only [slideCombineRow, specCompactAndMerge, mergeRec_eq_spec]

/-- Claim C9: reapplying `slideCombineRow` to one of its own outputs that
has no adjacent equal nonzero entries returns that line unchanged, with no
gain and no merged indices. -/
theorem slideCombineRow_idempotent (r line : List Nat)
    (hline : line = (slideCombineRow r).newRow)
    (hadj : hasAdjEqNonzero line = false) :
    slideCombineRow line = { newRow := line, mergedIndices := [], gained := 0 } := by
  have hm : ∀ x ∈ (mergeRec 0 (r.filter (fun v => v != 0))).1, x ≠ 0 :=
    mergeRec_nonzero _ 0 (fun x hx => by simpa using (List.mem_filter.1 hx).2)
  have hline' : line = padTo4 (mergeRec 0 (r.filter (fun v => v != 0))).1 :=
    hline
  have hfilter : line.filter (fun v => v != 0)
      = (mergeRec 0 (r.filter (fun v => v != 0))).1 := by
    rw [hline', padTo4_filter _ hm]
  have hadj' : hasAdjEqNonzero (mergeRec 0 (r.filter (fun v => v != 0))).1
      = false := by
    apply hasAdjEqNonzero_of_append _ (List.replicate
      (SIZE - (mergeRec 0 (r.filter (fun v => v != 0))).1.length) 0)
    rw [← padTo4, ← hline']
    exact hadj
  have hdef : slideCombineRow line =
      { newRow := padTo4 (mergeRec 0 (line.filter (fun v => v != 0))).1
        mergedIndices := (mergeRec 0 (line.filter (fun v => v != 0))).2.1
        gained := (mergeRec 0 (line.filter (fun v => v != 0))).2.2 } := rfl
  rw [hdef, hfilter, mergeRec_of_noAdj _ 0 hm hadj']
  simp [← hline']

/-- Witness for C9 at the concrete line `[2,4,0,0]`, its own slide-combine
output. -/
theorem slideCombineRow_idempotent_witness :
    slideCombineRow [2, 4, 0, 0] =
      { newRow := [2, 4, 0, 0], mergedIndices := [], gained := 0 } :=
  slideCombineRow_idempotent [2, 4, 0, 0] [2, 4, 0, 0] (by decide) (by decide)

/-! ### Shape lemmas for 4×4 grids -/

/-- A list of length 4 is a four-element literal. -/
theorem len4_eq {α : Type} (l : List α) (h : l.length = 4) :
    ∃ a b c d, l = [a, b, c, d] := by
  rcases l with _ | ⟨a, l⟩
  · simp at h
  rcases l with _ | ⟨b, l⟩
  · simp at h
  rcases l with _ | ⟨c, l⟩
  · simp at h
  rcases l with _ | ⟨d, l⟩
  · simp at h
  rcases l with _ | ⟨e, l⟩
  · exact ⟨a, b, c, d, rfl⟩
  · simp at h

/-- A well-formed grid is a 4×4 matrix literal. -/
theorem wfGrid_eq (g : Grid) (h : wfGrid g) :
    ∃ x00 x01 x02 x03 x10 x11 x12 x13 x20 x21 x22 x23 x30 x31 x32 x33,
      g = [[x00, x01, x02, x03], [x10, x11, x12, x13],
           [x20, x21, x22, x23], [x30, x31, x32, x33]] := by
  obtain ⟨hl, hr⟩ := h
  obtain ⟨r0, r1, r2, r3, rfl⟩ := len4_eq g hl
  obtain ⟨a, b, c, d, rfl⟩ := len4_eq r0 (hr r0 (by simp))
  obtain ⟨a1, b1, c1, d1, rfl⟩ := len4_eq r1 (hr r1 (by simp))
  obtain ⟨a2, b2, c2, d2, rfl⟩ := len4_eq r2 (hr r2 (by simp))
  obtain ⟨a3, b3, c3, d3, rfl⟩ := len4_eq r3 (hr r3 (by simp))
  exact ⟨a, b, c, d, a1, b1, c1, d1, a2, b2, c2, d2, a3, b3, c3, d3, rfl⟩

/-- The transpose of any grid is well-formed. -/
theorem wfGrid_transposeG (g : Grid) : wfGrid (transposeG g) := by
  constructor
  · simp [transposeG, SIZE]
  · intro row hrow
    simp only [transposeG] at hrow
    obtain ⟨c, _, rfl⟩ := List.mem_map.1 hrow
    simp [SIZE]

/-- Reading the transpose swaps the indices. -/
theorem cell_transposeG (g : Grid) (r c : Nat) (hr : r < 4) (hc : c < 4) :
    cell (transposeG g) r c = cell g c r := by
  simp only [transposeG, SIZE, cell, List.getD_eq_getElem?_getD,
    List.getElem?_map, List.getElem?_range, hr, hc, if_pos,
    Option.map_some', Option.getD_some]

/-- Two well-formed grids with equal cells are equal. -/
theorem grid_ext (g g' : Grid) (hg : wfGrid g) (hg' : wfGrid g')
    (h : ∀ r c, r < 4 → c < 4 → cell g r c = cell g' r c) : g = g' := by
  obtain ⟨a, b, c, d, e, f, i, j, k, l, m, n, o, p, q, r, rfl⟩ := wfGrid_eq g hg
  obtain ⟨a', b', c', d', e', f', i', j', k', l', m', n', o', p', q', r', rfl⟩ :=
    wfGrid_eq g' hg'
  have e00 : a = a' := h 0 0 (by omega) (by omega)
  have e01 : b = b' := h 0 1 (by omega) (by omega)
  have e02 : c = c' := h 0 2 (by omega) (by omega)
  have e03 : d = d' := h 0 3 (by omega) (by omega)
  have e10 : e = e' := h 1 0 (by omega) (by omega)
  have e11 : f = f' := h 1 1 (by omega) (by omega)
  have e12 : i = i' := h 1 2 (by omega) (by omega)
  have e13 : j = j' := h 1 3 (by omega) (by omega)
  have e20 : k = k' := h 2 0 (by omega) (by omega)
  have e21 : l = l' := h 2 1 (by omega) (by omega)
  have e22 : m = m' := h 2 2 (by omega) (by omega)
  have e23 : n = n' := h 2 3 (by omega) (by omega)
  have e30 : o = o' := h 3 0 (by omega) (by omega)
  have e31 : p = p' := h 3 1 (by omega) (by omega)
  have e32 : q = q' := h 3 2 (by omega) (by omega)
  have e33 : r = r' := h 3 3 (by omega) (by omega)
  subst e00 e01 e02 e03 e10 e11 e12 e13 e20 e21 e22 e23 e30 e31 e32 e33
  rfl

/-- Transposing a well-formed grid preserves the total value. -/
theorem gridSum_transposeG (g : Grid) (hg : wfGrid g) :
    gridSum (transposeG g) = gridSum g := by
  obtain ⟨a, b, c, d, e, f, i, j, k, l, m, n, o, p, q, r, rfl⟩ := wfGrid_eq g hg
  have ht : transposeG [[a, b, c, d], [e, f, i, j], [k, l, m, n], [o, p, q, r]]
      = [[a, e, k, o], [b, f, l, p], [c, i, m, q], [d, j, n, r]] := rfl
  rw [ht]
  simp [gridSum]
  ring

/-! ### Row sums, lengths, and fixed points -/

/-- The merge loop preserves the sum of the line (a merge replaces
`a, a` by `a * 2`). -/
theorem mergeRec_sum : ∀ (l : List Nat) (i : Nat),
    (mergeRec i l).1.sum = l.sum
  | [], _ => rfl
  | [_], _ => by simp [mergeRec]
  | a :: b :: rest, i => by
    by_cases hab : a = b
    · simp only [mergeRec, if_pos hab, List.sum_cons,
        mergeRec_sum rest (i + 1)]
      omega
    · simp only [mergeRec, if_neg hab, List.sum_cons,
        mergeRec_sum (b :: rest) (i + 1)]

/-- Dropping zeros preserves the sum. -/
theorem filter_nz_sum : ∀ l : List Nat, (l.filter (fun v => v != 0)).sum = l.sum
  | [] => rfl
  | a :: l => by
    by_cases ha : a = 0
    · simp [ha, filter_nz_sum l]
    · simp [List.filter_cons, ha, filter_nz_sum l]

/-- Zero padding preserves the sum. -/
theorem padTo4_sum (l : List Nat) : (padTo4 l).sum = l.sum := by
  simp [padTo4]

/-- A slide-combine pass preserves the sum of the row. -/
theorem slideCombineRow_sum (r : List Nat) :
    (slideCombineRow r).newRow.sum = r.sum := by
  simp only [slideCombineRow, padTo4_sum, mergeRec_sum, filter_nz_sum]

/-- The merge loop never lengthens the line. -/
theorem mergeRec_len_le : ∀ (l : List Nat) (i : Nat),
    (mergeRec i l).1.length ≤ l.length
  | [], _ => Nat.le_refl _
  | [_], _ => Nat.le_refl _
  | a :: b :: rest, i => by
    by_cases hab : a = b
    · simp only [mergeRec, if_pos hab, List.length_cons]
      have := mergeRec_len_le rest (i + 1)
      omega
    · simp only [mergeRec, if_neg hab, List.length_cons]
      have := mergeRec_len_le (b :: rest) (i + 1)
      simp only [List.length_cons] at this
      omega

/-- Each merge removes exactly one entry and records exactly one index. -/
theorem mergeRec_len_add : ∀ (l : List Nat) (i : Nat),
    (mergeRec i l).1.length + (mergeRec i l).2.1.length = l.length
  | [], _ => rfl
  | [_], _ => rfl
  | a :: b :: rest, i => by
    by_cases hab : a = b
    · simp only [mergeRec, if_pos hab, List.length_cons]
      have := mergeRec_len_add rest (i + 1)
      omega
    · simp only [mergeRec, if_neg hab, List.length_cons]
      have := mergeRec_len_add (b :: rest) (i + 1)
      simp only [List.length_cons] at this
      omega

/-- A pass that records no merged index gains nothing. -/
theorem mergeRec_gain_of_nil : ∀ (l : List Nat) (i : Nat),
    (mergeRec i l).2.1 = [] → (mergeRec i l).2.2 = 0
  | [], _, _ => rfl
  | [_], _, _ => rfl
  | a :: b :: rest, i, h => by
    by_cases hab : a = b
    · simp [mergeRec, if_pos hab] at h
    · simp only [mergeRec, if_neg hab] at h ⊢
      exact mergeRec_gain_of_nil (b :: rest) (i + 1) h

/-- A slide-combine pass that leaves its row unchanged gained nothing
(a merge strictly reduces the number of nonzero entries). -/
theorem slideCombineRow_fixed_gain (r : List Nat)
    (h : (slideCombineRow r).newRow = r) : (slideCombineRow r).gained = 0 := by
  have hm : ∀ x ∈ (mergeRec 0 (r.filter (fun v => v != 0))).1, x ≠ 0 :=
    mergeRec_nonzero _ 0 (fun x hx => by simpa using (List.mem_filter.1 hx).2)
  have hrow : (slideCombineRow r).newRow
      = padTo4 (mergeRec 0 (r.filter (fun v => v != 0))).1 := rfl
  have hfix : (mergeRec 0 (r.filter (fun v => v != 0))).1
      = r.filter (fun v => v != 0) := by
    conv_rhs => rw [← h]
    rw [hrow, padTo4_filter _ hm]
  have hlen := mergeRec_len_add (r.filter (fun v => v != 0)) 0
  rw [hfix] at hlen
  have hnil : (mergeRec 0 (r.filter (fun v => v != 0))).2.1 = [] := by
    have := List.length_eq_zero.1 (by omega :
      (mergeRec 0 (r.filter (fun v => v != 0))).2.1.length = 0)
    exact this
  exact mergeRec_gain_of_nil _ 0 hnil

/-- Sliding a row of length at most 4 yields a row of length exactly 4. -/
theorem slideCombineRow_len (r : List Nat) (h : r.length ≤ 4) :
    (slideCombineRow r).newRow.length = 4 := by
  have h1 : (r.filter (fun v => v != 0)).length ≤ r.length :=
    List.length_filter_le _ _
  have h2 := mergeRec_len_le (r.filter (fun v => v != 0)) 0
  have hrow : (slideCombineRow r).newRow
      = padTo4 (mergeRec 0 (r.filter (fun v => v != 0))).1 := rfl
  rw [hrow]
  simp only [padTo4, List.length_append, List.length_replicate, SIZE]
  omega

/-- Pointwise consequence of a list being fixed by a map. -/
theorem map_fixed {α : Type} (f : α → α) :
    ∀ l : List α, l.map f = l → ∀ x ∈ l, f x = x
  | [], _, x, hx => absurd hx (List.not_mem_nil x)
  | a :: l, h, x, hx => by
    simp only [List.map_cons, List.cons.injEq] at h
    rcases List.mem_cons.1 hx with rfl | hx'
    · exact h.1
    · exact map_fixed f l h.2 x hx'

/-- A false row-comparison flag means the two lists agree. -/
theorem zip_bne_false {α : Type} [BEq α] [LawfulBEq α] :
    ∀ l l' : List α, l.length = l'.length →
      ((l.zip l').any fun p => p.1 != p.2) = false → l = l'
  | [], [], _, _ => rfl
  | [], _ :: _, h, _ => by simp at h
  | _ :: _, [], h, _ => by simp at h
  | a :: l, b :: l', h, hz => by
    simp only [List.zip_cons_cons, List.any_cons, Bool.or_eq_false_iff,
      bne_eq_false_iff_eq] at hz
    simp only [List.length_cons] at h
    rw [hz.1, zip_bne_false l l' (by omega) hz.2]

/-! ### Move-core lemmas: shape, sum preservation, and no-op moves -/

/-- Rowwise sum preservation lifts to the grid. -/
theorem gridSum_map (G : Grid) (f : List Nat → List Nat)
    (h : ∀ r ∈ G, (f r).sum = r.sum) : gridSum (G.map f) = gridSum G := by
  unfold gridSum
  rw [List.map_map]
  exact congrArg List.sum (List.map_congr_left h)

/-- Rowwise length preservation lifts to grid well-formedness. -/
theorem wfGrid_map (G : Grid) (f : List Nat → List Nat) (hG : wfGrid G)
    (h : ∀ r ∈ G, (f r).length = 4) : wfGrid (G.map f) := by
  refine ⟨by simp [hG.1], ?_⟩
  intro row hrow
  obtain ⟨r, hr, rfl⟩ := List.mem_map.1 hrow
  exact h r hr

/-- A false `any` over `range 4` is false at each index. -/
theorem any_range4_false (p : Nat → Bool)
    (h : ((List.range 4).any p) = false) : ∀ x, x < 4 → p x = false := by
  intro x hx
  simpa using List.any_eq_false.1 h x (List.mem_range.2 hx)

/-- `moveLeftCore` unfolded to its three components. -/
theorem moveLeftCore_def (g : Grid) :
    moveLeftCore g = (g.map (fun r => (slideCombineRow r).newRow),
      ((g.zip (g.map (fun r => (slideCombineRow r).newRow))).any
        fun p => p.1 != p.2),
      (g.map (fun r => (slideCombineRow r).gained)).sum) := by
  simp [moveLeftCore, List.map_map, Function.comp_def]

/-- `moveRightCore` unfolded to its three components. -/
theorem moveRightCore_def (g : Grid) :
    moveRightCore g =
      (g.map (fun r => (slideCombineRow r.reverse).newRow.reverse),
      ((g.zip (g.map (fun r => (slideCombineRow r.reverse).newRow.reverse))).any
        fun p => p.1 != p.2),
      (g.map (fun r => (slideCombineRow r.reverse).gained)).sum) := by
  simp [moveRightCore, List.map_map, Function.comp_def]

/-- `moveUpCore` unfolded to its three components. -/
theorem moveUpCore_def (g : Grid) :
    moveUpCore g =
      (transposeG ((transposeG g).map (fun c => (slideCombineRow c).newRow)),
      ((List.range SIZE).any fun r => (List.range SIZE).any fun c =>
        cell g r c !=
          cell (transposeG ((transposeG g).map
            (fun c => (slideCombineRow c).newRow))) r c),
      ((transposeG g).map (fun c => (slideCombineRow c).gained)).sum) := by
  simp [moveUpCore, List.map_map, Function.comp_def]

/-- `moveDownCore` unfolded to its three components. -/
theorem moveDownCore_def (g : Grid) :
    moveDownCore g =
      (transposeG ((transposeG g).map
        (fun c => (slideCombineRow c.reverse).newRow.reverse)),
      ((List.range SIZE).any fun r => (List.range SIZE).any fun c =>
        cell g r c !=
          cell (transposeG ((transposeG g).map
            (fun c => (slideCombineRow c.reverse).newRow.reverse))) r c),
      ((transposeG g).map
        (fun c => (slideCombineRow c.reverse).gained)).sum) := by
  simp [moveDownCore, List.map_map, Function.comp_def]

/-- Every direction core preserves the total value on a well-formed
board (merges replace `a, a` by `a * 2`). -/
theorem moveCore_sum (direction : String) (g : Grid) (hg : wfGrid g) :
    gridSum (moveCore direction g).1 = gridSum g := by
  have hup : ∀ f : List Nat → List Nat, (∀ r : List Nat, (f r).sum = r.sum) →
      (∀ r : List Nat, r.length = 4 → (f r).length = 4) →
      gridSum (transposeG ((transposeG g).map f)) = gridSum g := by
    intro f hsum hlen
    have hwf : wfGrid ((transposeG g).map f) :=
      wfGrid_map _ f (wfGrid_transposeG g)
        (fun r hr => hlen r ((wfGrid_transposeG g).2 r hr))
    rw [gridSum_transposeG _ hwf, gridSum_map _ f (fun r _ => hsum r),
      gridSum_transposeG _ hg]
  unfold moveCore
  split
  · rw [moveLeftCore_def]
    exact gridSum_map _ _ (fun r _ => slideCombineRow_sum r)
  split
  · rw [moveRightCore_def]
    exact gridSum_map _ _ (fun r _ => by
      simpa [List.sum_reverse] using slideCombineRow_sum r.reverse)
  split
  · rw [moveUpCore_def]
    exact hup _ (fun r => slideCombineRow_sum r)
      (fun r hr => slideCombineRow_len r (by omega))
  split
  · rw [moveDownCore_def]
    exact hup _ (fun r => by simpa [List.sum_reverse]
        using slideCombineRow_sum r.reverse)
      (fun r hr => by
        simpa using slideCombineRow_len r.reverse (by simpa using Nat.le_of_eq hr))
  · rfl

/-- Every direction core keeps the board well-formed. -/
theorem moveCore_wf (direction : String) (g : Grid) (hg : wfGrid g) :
    wfGrid (moveCore direction g).1 := by
  unfold moveCore
  split
  · rw [moveLeftCore_def]
    exact wfGrid_map _ _ hg
      (fun r hr => slideCombineRow_len r (Nat.le_of_eq (hg.2 r hr)))
  split
  · rw [moveRightCore_def]
    exact wfGrid_map _ _ hg (fun r hr => by
      simpa using slideCombineRow_len r.reverse
        (by simpa using Nat.le_of_eq (hg.2 r hr)))
  split
  · rw [moveUpCore_def]
    exact wfGrid_transposeG _
  split
  · rw [moveDownCore_def]
    exact wfGrid_transposeG _
  · exact hg

/-- A core whose `moved` flag is false left the (well-formed) grid equal to
the input and gained nothing. -/
theorem moveCore_not_moved (direction : String) (g : Grid) (hg : wfGrid g)
    (h : (moveCore direction g).2.1 = false) :
    (moveCore direction g).1 = g ∧ (moveCore direction g).2.2 = 0 := by
  have hgain0 : ∀ G : Grid, ∀ f : List Nat → SlideResult,
      (∀ r ∈ G, (f r).gained = 0) → (G.map (fun r => (f r).gained)).sum = 0 := by
    intro G f hf
    apply List.sum_eq_zero
    intro x hx
    obtain ⟨r, hr, rfl⟩ := List.mem_map.1 hx
    exact hf r hr
  have hud : ∀ f : List Nat → List Nat, (∀ r : List Nat, r.length = 4 →
        (f r).length = 4) →
      ((List.range SIZE).any fun r => (List.range SIZE).any fun c =>
        cell g r c != cell (transposeG ((transposeG g).map f)) r c) = false →
      transposeG ((transposeG g).map f) = g ∧ (transposeG g).map f = transposeG g := by
    intro f hlen hmov
    have hwfm : wfGrid ((transposeG g).map f) :=
      wfGrid_map _ f (wfGrid_transposeG g)
        (fun r hr => hlen r ((wfGrid_transposeG g).2 r hr))
    have hcellwise : ∀ r c, r < 4 → c < 4 →
        cell g r c = cell (transposeG ((transposeG g).map f)) r c := by
      intro r c hr hc
      have h1 := any_range4_false _ hmov r hr
      have h2 := any_range4_false _ h1 c hc
      simpa using h2
    have hgg : transposeG ((transposeG g).map f) = g :=
      (grid_ext g _ hg (wfGrid_transposeG _) hcellwise).symm
    refine ⟨hgg, ?_⟩
    apply grid_ext _ _ hwfm (wfGrid_transposeG g)
    intro r c hr hc
    rw [← cell_transposeG ((transposeG g).map f) c r hc hr,
      cell_transposeG g r c hr hc, hgg]
  by_cases d1 : direction = "left"
  · simp only [moveCore, if_pos d1, moveLeftCore_def] at h ⊢
    have hlen : g.length = (g.map (fun r => (slideCombineRow r).newRow)).length := by
      simp
    have hfix := zip_bne_false _ _ hlen h
    refine ⟨hfix.symm, hgain0 _ _ ?_⟩
    intro r hr
    exact slideCombineRow_fixed_gain r (map_fixed _ g hfix.symm r hr)
  by_cases d2 : direction = "right"
  · simp only [moveCore, if_neg d1, if_pos d2, moveRightCore_def] at h ⊢
    have hlen : g.length
        = (g.map (fun r => (slideCombineRow r.reverse).newRow.reverse)).length := by
      simp
    have hfix := zip_bne_false _ _ hlen h
    refine ⟨hfix.symm, hgain0 _ _ ?_⟩
    intro r hr
    have hrow := map_fixed _ g hfix.symm r hr
    have : (slideCombineRow r.reverse).newRow = r.reverse :=
      List.reverse_eq_iff.1 hrow
    exact slideCombineRow_fixed_gain r.reverse this
  by_cases d3 : direction = "up"
  · simp only [moveCore, if_neg d1, if_neg d2, if_pos d3, moveUpCore_def] at h ⊢
    obtain ⟨hgg, hcols⟩ := hud _
      (fun r hr => slideCombineRow_len r (by omega)) h
    refine ⟨hgg, hgain0 _ _ ?_⟩
    intro r hr
    exact slideCombineRow_fixed_gain r (map_fixed _ _ hcols r hr)
  by_cases d4 : direction = "down"
  · simp only [moveCore, if_neg d1, if_neg d2, if_neg d3, if_pos d4,
      moveDownCore_def] at h ⊢
    obtain ⟨hgg, hcols⟩ := hud _
      (fun r hr => by
        simpa using slideCombineRow_len r.reverse (by simpa using Nat.le_of_eq hr)) h
    refine ⟨hgg, hgain0 _ _ ?_⟩
    intro r hr
    have hrow := map_fixed _ _ hcols r hr
    exact slideCombineRow_fixed_gain r.reverse (List.reverse_eq_iff.1 hrow)
  · simp only [moveCore, if_neg d1, if_neg d2, if_neg d3, if_neg d4]
    trivial

/-! ### State-level lemmas -/

/-- `checkGameState` only ever touches the two terminal flags. -/
theorem checkGameState_fields (s : GameState) :
    (checkGameState s).grid = s.grid ∧
    (checkGameState s).score = s.score ∧
    (checkGameState s).lastGrid = s.lastGrid ∧
    (checkGameState s).lastScore = s.lastScore ∧
    (checkGameState s).lastAddedPos = s.lastAddedPos := by
  unfold checkGameState
  split
  · exact ⟨rfl, rfl, rfl, rfl, rfl⟩
  split
  · exact ⟨rfl, rfl, rfl, rfl, rfl⟩
  · exact ⟨rfl, rfl, rfl, rfl, rfl⟩

/-- One evaluation of `checkGameState` from a live state sets at most one
of the two terminal flags. -/
theorem checkGameState_excl (s : GameState) (hw : s.gameWon = false)
    (ho : s.gameOver = false) :
    ¬((checkGameState s).gameWon = true ∧ (checkGameState s).gameOver = true) := by
  unfold checkGameState
  split
  · simp [ho]
  split
  · simp [hw]
  · simp [hw]

/-- Boolean negation of the terminal guard. -/
theorem terminal_false (s : GameState) (h : ¬(s.gameOver || s.gameWon) = true) :
    s.gameOver = false ∧ s.gameWon = false := by
  simp only [Bool.or_eq_true, not_or, Bool.not_eq_true] at h
  exact h

/-- A true `moveChanged` flag splits into its two ingredients. -/
theorem moveChanged_true (s : GameState) (direction : String)
    (h : moveChanged s direction = true) :
    (s.gameOver || s.gameWon) = false ∧
    (moveCore direction s.grid).2.1 = true := by
  unfold moveChanged at h
  by_cases ht : (s.gameOver || s.gameWon) = true
  · rw [if_pos ht] at h
    exact absurd h (by simp)
  · rw [if_neg ht] at h
    exact ⟨Bool.eq_false_iff.2 ht, h⟩

/-- Claim C3: undo after a changed move restores exactly the pre-move grid
and score, clears the snapshot and the terminal flags; a second undo in a
row is a no-op; undo without a snapshot changes nothing. -/
theorem undo_restores :
    (∀ (s : GameState) (direction : String) (rnd1 rnd2 : Rnd),
      moveChanged s direction = true →
      undoMove (handleMove s direction rnd1 rnd2) =
        { grid := s.grid, score := s.score, lastGrid := none, lastScore := 0,
          lastAddedPos := none, gameOver := false, gameWon := false }) ∧
    (∀ s : GameState, undoMove (undoMove s) = undoMove s) ∧
    (∀ s : GameState, s.lastGrid = none → undoMove s = s) := by
  refine ⟨?_, ?_, ?_⟩
  · intro s direction rnd1 rnd2 h
    obtain ⟨ht, hmv⟩ := moveChanged_true s direction h
    unfold handleMove
    rw [if_neg (by rw [ht]; simp), if_pos hmv]
    have hf := checkGameState_fields
      { grid := (addRandomTile (moveCore direction s.grid).1 rnd1 rnd2).1
        score := s.score + (moveCore direction s.grid).2.2
        lastGrid := some s.grid
        lastScore := s.score
        lastAddedPos := (addRandomTile (moveCore direction s.grid).1 rnd1 rnd2).2
        gameOver := s.gameOver
        gameWon := s.gameWon }
    unfold undoMove
    rw [hf.2.2.1]
    simp only
    rw [hf.2.2.2.1]
  · intro s
    rcases hl : s.lastGrid with _ | g
    · simp [undoMove, hl]
    · simp [undoMove, hl]
  · intro s h
    unfold undoMove
    rw [h]

/-- Witness for C3: a concrete changed move, undone. -/
def sUndo : GameState :=
  { grid := [[0, 2, 0, 0], [0, 0, 0, 0], [0, 0, 0, 0], [0, 0, 0, 0]]
    score := 0, lastGrid := none, lastScore := 0, lastAddedPos := none
    gameOver := false, gameWon := false }

theorem undo_restores_witness :
    undoMove (handleMove sUndo "left" ⟨0, 1⟩ ⟨0, 1⟩) =
      { grid := sUndo.grid, score := sUndo.score, lastGrid := none,
        lastScore := 0, lastAddedPos := none, gameOver := false,
        gameWon := false } :=
  undo_restores.1 sUndo "left" ⟨0, 1⟩ ⟨0, 1⟩ (by decide)

/-- Claim C4: in a terminal state every move is rejected outright, and both
`reset` (`initGame`) and a snapshot-consuming `undo` return the engine to a
live state with both flags cleared. -/
theorem terminal_rejects_moves :
    (∀ (s : GameState) (direction : String) (rnd1 rnd2 : Rnd),
      s.gameWon = true ∨ s.gameOver = true →
      handleMove s direction rnd1 rnd2 = s ∧
      moveChanged s direction = false) ∧
    (∀ a1 a2 b1 b2 : Rnd, (initGame a1 a2 b1 b2).gameWon = false ∧
      (initGame a1 a2 b1 b2).gameOver = false) ∧
    (∀ (s : GameState) (g : Grid), s.lastGrid = some g →
      (undoMove s).gameWon = false ∧ (undoMove s).gameOver = false) := by
  refine ⟨?_, ?_, ?_⟩
  · intro s direction rnd1 rnd2 h
    constructor
    · unfold handleMove
      rw [if_pos]
      rcases h with h | h <;> simp [h]
    · unfold moveChanged
      rw [if_pos]
      rcases h with h | h <;> simp [h]
  · intro a1 a2 b1 b2
    exact ⟨rfl, rfl⟩
  · intro s g h
    unfold undoMove
    rw [h]
    exact ⟨rfl, rfl⟩

/-- Witness for C4: a concrete won state rejects a move. -/
def sWon : GameState :=
  { grid := [[2048, 2, 0, 0], [0, 0, 0, 0], [0, 0, 0, 0], [0, 0, 0, 0]]
    score := 2048, lastGrid := none, lastScore := 0, lastAddedPos := none
    gameOver := false, gameWon := true }

theorem terminal_rejects_moves_witness :
    handleMove sWon "left" ⟨0, 1⟩ ⟨0, 1⟩ = sWon ∧
    moveChanged sWon "left" = false :=
  terminal_rejects_moves.1 sWon "left" ⟨0, 1⟩ ⟨0, 1⟩ (Or.inl rfl)

/-- Claim C6: a move attempt with `changed = false` leaves grid, score,
undo snapshot and terminal flags untouched. -/
theorem unchanged_move_no_effects (s : GameState) (direction : String)
    (rnd1 rnd2 : Rnd) (hg : wfGrid s.grid)
    (h : moveChanged s direction = false) :
    (handleMove s direction rnd1 rnd2).grid = s.grid ∧
    (handleMove s direction rnd1 rnd2).score = s.score ∧
    (handleMove s direction rnd1 rnd2).lastGrid = s.lastGrid ∧
    (handleMove s direction rnd1 rnd2).lastScore = s.lastScore ∧
    (handleMove s direction rnd1 rnd2).gameWon = s.gameWon ∧
    (handleMove s direction rnd1 rnd2).gameOver = s.gameOver := by
  unfold handleMove
  by_cases ht : (s.gameOver || s.gameWon) = true
  · rw [if_pos ht]
    exact ⟨rfl, rfl, rfl, rfl, rfl, rfl⟩
  · rw [if_neg ht]
    have hmv : (moveCore direction s.grid).2.1 = false := by
      unfold moveChanged at h
      rwa [if_neg ht] at h
    rw [if_neg (by rw [hmv]; simp)]
    obtain ⟨hfix, hgain⟩ := moveCore_not_moved direction s.grid hg hmv
    rw [hfix, hgain]
    exact ⟨rfl, rfl, rfl, rfl, rfl, rfl⟩

/-- Witness for C6: a rejected move in a won state changes nothing. -/
theorem unchanged_move_no_effects_witness :
    (handleMove sWon "up" ⟨0, 1⟩ ⟨0, 1⟩).grid = sWon.grid ∧
    (handleMove sWon "up" ⟨0, 1⟩ ⟨0, 1⟩).score = sWon.score ∧
    (handleMove sWon "up" ⟨0, 1⟩ ⟨0, 1⟩).lastGrid = sWon.lastGrid ∧
    (handleMove sWon "up" ⟨0, 1⟩ ⟨0, 1⟩).lastScore = sWon.lastScore ∧
    (handleMove sWon "up" ⟨0, 1⟩ ⟨0, 1⟩).gameWon = sWon.gameWon ∧
    (handleMove sWon "up" ⟨0, 1⟩ ⟨0, 1⟩).gameOver = sWon.gameOver :=
  unchanged_move_no_effects sWon "up" ⟨0, 1⟩ ⟨0, 1⟩ (by decide) (by decide)

/-! ### Invalid directions (claim C8) -/

/-- Amended C8: a direction string outside `left/right/up/down` raises no
error and is treated as an unproductive move: grid, score, snapshot and
flags are untouched, only the pending spawn marker is cleared (outside the
terminal states, where nothing at all happens). -/
theorem invalid_direction_ignored (s : GameState) (direction : String)
    (rnd1 rnd2 : Rnd)
    (h1 : direction ≠ "left") (h2 : direction ≠ "right")
    (h3 : direction ≠ "up") (h4 : direction ≠ "down") :
    handleMove s direction rnd1 rnd2 =
      if s.gameOver || s.gameWon then s
      else { s with lastAddedPos := none } := by
  unfold handleMove moveCore
  rw [if_neg h1, if_neg h2, if_neg h3, if_neg h4]
  by_cases ht : (s.gameOver || s.gameWon) = true
  · rw [if_pos ht, if_pos ht]
  · rw [if_neg ht, if_neg ht]
    rfl

/-- Counterexample input for C8: a live state with a pending spawn
marker. -/
def sInvalid : GameState :=
  { grid := [[2, 0, 0, 0], [0, 0, 0, 0], [0, 0, 0, 0], [0, 0, 0, 2]]
    score := 0, lastGrid := none, lastScore := 0, lastAddedPos := some (0, 0)
    gameOver := false, gameWon := false }

/-- Counterexample to C8 as stated: `handleMove` applied to the direction
string `"diagonal"` raises nothing (it returns a state like any other call)
and does change the state — it clears `lastAddedPos` — instead of failing
fast with no state change. -/
theorem invalid_direction_counterexample :
    handleMove sInvalid "diagonal" ⟨0, 1⟩ ⟨0, 1⟩ ≠ sInvalid ∧
    handleMove sInvalid "diagonal" ⟨0, 1⟩ ⟨0, 1⟩ =
      { sInvalid with lastAddedPos := none } := by
  refine ⟨?_, ?_⟩ <;> decide

/-- Witness for the amended C8 at the same concrete state. -/
theorem invalid_direction_ignored_witness :
    handleMove sInvalid "diag" ⟨0, 1⟩ ⟨0, 1⟩ =
      if sInvalid.gameOver || sInvalid.gameWon then sInvalid
      else { sInvalid with lastAddedPos := none } :=
  invalid_direction_ignored sInvalid "diag" ⟨0, 1⟩ ⟨0, 1⟩
    (by decide) (by decide) (by decide) (by decide)

/-! ### Spawn accounting (claims C2 and C7 groundwork) -/

/-- `getD` inside the range returns a member. -/
theorem getD_mem {α : Type} (l : List α) (idx : Nat) (d : α)
    (h : idx < l.length) : l.getD idx d ∈ l := by
  rw [List.getD_eq_getElem?_getD, List.getElem?_eq_getElem h]
  simp [List.getElem_mem]

/-- Members of the empty-cell list are in-range empty cells. -/
theorem emptyCells_mem (g : Grid) (p : Nat × Nat) (hp : p ∈ emptyCells g) :
    p.1 < 4 ∧ p.2 < 4 ∧ cell g p.1 p.2 = 0 := by
  simp only [emptyCells, List.mem_flatMap, List.mem_filterMap,
    List.mem_range, SIZE] at hp
  obtain ⟨r, hr, c, hc, hif⟩ := hp
  split at hif
  · cases hif
    exact ⟨hr, hc, by assumption⟩
  · cases hif

/-- Setting an in-range empty cell adds exactly the written value to the
board total. -/
theorem gridSum_setCell (g : Grid) (hg : wfGrid g) (r c v : Nat)
    (hr : r < 4) (hc : c < 4) (h0 : cell g r c = 0) :
    gridSum (setCell g r c v) = gridSum g + v := by
  obtain ⟨a, b, c', d, e, f, i, j, k, l, m, n, o, p, q, rr, rfl⟩ := wfGrid_eq g hg
  interval_cases r <;> interval_cases c <;>
    simp [cell, setCell, gridSum] at h0 ⊢ <;> omega

/-- Reading back an in-range written cell. -/
theorem cell_setCell (g : Grid) (hg : wfGrid g) (r c v : Nat)
    (hr : r < 4) (hc : c < 4) : cell (setCell g r c v) r c = v := by
  obtain ⟨a, b, c', d, e, f, i, j, k, l, m, n, o, p, q, rr, rfl⟩ := wfGrid_eq g hg
  interval_cases r <;> interval_cases c <;> rfl

/-- `addRandomTile` either finds a full board and does nothing, or writes
2 or 4 (depending on the second draw) into a member of the empty-cell
list. -/
theorem addRandomTile_cases (g : Grid) (rnd1 rnd2 : Rnd)
    (hq : rnd1.num < rnd1.den) :
    (emptyCells g = [] ∧ addRandomTile g rnd1 rnd2 = (g, none)) ∨
    (∃ p, p ∈ emptyCells g ∧
      addRandomTile g rnd1 rnd2 =
        (setCell g p.1 p.2 (if 10 * rnd2.num < 9 * rnd2.den then 2 else 4),
          some p)) := by
  by_cases he : (emptyCells g).isEmpty
  · left
    refine ⟨List.isEmpty_iff.1 he, ?_⟩
    unfold addRandomTile
    rw [if_pos he]
  · right
    have hlen : 0 < (emptyCells g).length := by
      rcases hl : emptyCells g with _ | ⟨x, t⟩
      · rw [hl] at he
        simp at he
      · simp
    have hidx : rnd1.num * (emptyCells g).length / rnd1.den
        < (emptyCells g).length := by
      have hd : 0 < rnd1.den := by omega
      rw [Nat.div_lt_iff_lt_mul hd]
      calc rnd1.num * (emptyCells g).length
          < rnd1.den * (emptyCells g).length := by
            exact (Nat.mul_lt_mul_right hlen).2 hq
        _ = (emptyCells g).length * rnd1.den := Nat.mul_comm _ _
    refine ⟨(emptyCells g).getD
      (rnd1.num * (emptyCells g).length / rnd1.den) (0, 0),
      getD_mem _ _ _ hidx, ?_⟩
    unfold addRandomTile
    rw [if_neg he]

/-- Amended C2: a changed move adds exactly the value of the spawned tile
to the board total (merges move value around but never create or destroy
it; the score gain is book-kept separately and does not appear on the
board). -/
theorem move_sum_conservation (s : GameState) (direction : String)
    (rnd1 rnd2 : Rnd) (hg : wfGrid s.grid) (hq : rnd1.num < rnd1.den)
    (h : moveChanged s direction = true) :
    gridSum (handleMove s direction rnd1 rnd2).grid
      = gridSum s.grid + spawnedValue (handleMove s direction rnd1 rnd2) := by
  obtain ⟨ht, hmv⟩ := moveChanged_true s direction h
  have hwf' : wfGrid (moveCore direction s.grid).1 := moveCore_wf _ _ hg
  have hsum' : gridSum (moveCore direction s.grid).1 = gridSum s.grid :=
    moveCore_sum _ _ hg
  unfold handleMove
  rw [if_neg (by rw [ht]; simp), if_pos hmv]
  have hf := checkGameState_fields
    { grid := (addRandomTile (moveCore direction s.grid).1 rnd1 rnd2).1
      score := s.score + (moveCore direction s.grid).2.2
      lastGrid := some s.grid
      lastScore := s.score
      lastAddedPos := (addRandomTile (moveCore direction s.grid).1 rnd1 rnd2).2
      gameOver := s.gameOver
      gameWon := s.gameWon }
  rw [hf.1]
  have hsv : spawnedValue (checkGameState
      { grid := (addRandomTile (moveCore direction s.grid).1 rnd1 rnd2).1
        score := s.score + (moveCore direction s.grid).2.2
        lastGrid := some s.grid
        lastScore := s.score
        lastAddedPos := (addRandomTile (moveCore direction s.grid).1 rnd1 rnd2).2
        gameOver := s.gameOver
        gameWon := s.gameWon }) =
      match (addRandomTile (moveCore direction s.grid).1 rnd1 rnd2).2 with
      | none => 0
      | some p =>
        cell (addRandomTile (moveCore direction s.grid).1 rnd1 rnd2).1 p.1 p.2 := by
    unfold spawnedValue
    simp only [hf.1, hf.2.2.2.2]
  rw [hsv]
  rcases addRandomTile_cases (moveCore direction s.grid).1 rnd1 rnd2 hq with
    ⟨_, heq⟩ | ⟨p, hp, heq⟩
  · rw [heq]
    simpa using hsum'
  · obtain ⟨hp1, hp2, hp0⟩ := emptyCells_mem _ p hp
    rw [heq]
    simp only
    rw [cell_setCell _ hwf' _ _ _ hp1 hp2,
      gridSum_setCell _ hwf' _ _ _ hp1 hp2 hp0, hsum']

/-- Counterexample input for C2: one merge of two 2-tiles, then a spawn of
value 2. -/
def sMass : GameState :=
  { grid := [[2, 2, 0, 0], [0, 0, 0, 0], [0, 0, 0, 0], [0, 0, 0, 0]]
    score := 0, lastGrid := none, lastScore := 0, lastAddedPos := none
    gameOver := false, gameWon := false }

/-- Counterexample to C2 as stated: after the changed move the board total
rose from 4 to 6, the score gained was 4 and the spawned tile was worth 2,
so `sum_after - sum_before = 2` differs from `scoreGained + spawnedValue = 6`
(a merge turns `2, 2` into `4`, leaving the board total unchanged). -/
theorem mass_conservation_counterexample :
    moveChanged sMass "left" = true ∧
    ¬(gridSum (handleMove sMass "left" ⟨0, 1⟩ ⟨0, 1⟩).grid - gridSum sMass.grid
        = ((handleMove sMass "left" ⟨0, 1⟩ ⟨0, 1⟩).score - sMass.score)
          + spawnedValue (handleMove sMass "left" ⟨0, 1⟩ ⟨0, 1⟩)) := by
  refine ⟨?_, ?_⟩ <;> decide

/-- Witness for the amended C2 at the same concrete state. -/
theorem move_sum_conservation_witness :
    gridSum (handleMove sMass "left" ⟨0, 1⟩ ⟨0, 1⟩).grid
      = gridSum sMass.grid
        + spawnedValue (handleMove sMass "left" ⟨0, 1⟩ ⟨0, 1⟩) :=
  move_sum_conservation sMass "left" ⟨0, 1⟩ ⟨0, 1⟩ (by decide) (by decide)
    (by decide)

/-! ### Terminal-flag exclusivity (claim C5) -/

/-- No state reachable through init, moves and undos carries both terminal
flags: `checkGameState` is only ever evaluated from a live state, where its
two branches are mutually exclusive. -/
theorem reachable_not_both (s : GameState) (h : Reachable s) :
    ¬(s.gameWon = true ∧ s.gameOver = true) := by
  induction h with
  | init a1 a2 b1 b2 => simp [initGame]
  | move s direction rnd1 rnd2 _ ih =>
    unfold handleMove
    by_cases ht : (s.gameOver || s.gameWon) = true
    · rw [if_pos ht]
      exact ih
    · rw [if_neg ht]
      obtain ⟨ho, hw⟩ := terminal_false s ht
      by_cases hm : (moveCore direction s.grid).2.1 = true
      · rw [if_pos hm]
        exact checkGameState_excl _ hw ho
      · rw [if_neg hm]
        simp [hw, ho]
  | undo s _ ih =>
    rcases hl : s.lastGrid with _ | g
    · simp only [undoMove, hl]
      exact ih
    · simp [undoMove, hl]

/-- Claim C5: `checkGameState` sets at most one flag per evaluation from a
live state, checks the win condition first (win priority), and no
reachable state is both won and over. -/
theorem won_over_exclusive :
    (∀ s : GameState, s.gameWon = false → s.gameOver = false →
      ¬((checkGameState s).gameWon = true ∧ (checkGameState s).gameOver = true)) ∧
    (∀ s : GameState, s.gameWon = false →
      (s.grid.any fun row => row.contains 2048) = true →
      checkGameState s = { s with gameWon := true }) ∧
    (∀ s : GameState, Reachable s →
      ¬(s.gameWon = true ∧ s.gameOver = true)) := by
  refine ⟨checkGameState_excl, ?_, reachable_not_both⟩
  intro s hw h2048
  unfold checkGameState
  rw [if_pos (by rw [h2048, hw]; rfl)]

/-- Witness for C5 at a concrete reachable state. -/
theorem won_over_exclusive_witness :
    ¬((initGame ⟨0, 1⟩ ⟨0, 1⟩ ⟨0, 1⟩ ⟨0, 1⟩).gameWon = true ∧
      (initGame ⟨0, 1⟩ ⟨0, 1⟩ ⟨0, 1⟩ ⟨0, 1⟩).gameOver = true) :=
  won_over_exclusive.2.2 _ (Reachable.init ⟨0, 1⟩ ⟨0, 1⟩ ⟨0, 1⟩ ⟨0, 1⟩)

/-! ### Cell values are powers of two (claim C10) -/

/-- The invariant satisfied by every tile value: empty, or `2^k` with
`k ≥ 1`. -/
def goodVal (v : Nat) : Prop := v = 0 ∨ ∃ k, v = 2 ^ (k + 1)

/-- Every entry of every row satisfies `goodVal`. -/
def gridGood (g : Grid) : Prop := ∀ row ∈ g, ∀ v ∈ row, goodVal v

theorem goodVal_double (v : Nat) (h : goodVal v) : goodVal (v * 2) := by
  rcases h with rfl | ⟨k, rfl⟩
  · exact Or.inl rfl
  · exact Or.inr ⟨k + 1, (pow_succ 2 (k + 1)).symm⟩

/-- `getD` returns a member or the default. -/
theorem getD_mem_or {α : Type} (l : List α) (i : Nat) (d : α) :
    l.getD i d ∈ l ∨ l.getD i d = d := by
  by_cases h : i < l.length
  · exact Or.inl (getD_mem l i d h)
  · exact Or.inr (List.getD_eq_default _ _ (by omega))

/-- Any cell read from a good grid is good (out-of-range reads give 0). -/
theorem cell_good (g : Grid) (h : gridGood g) (r c : Nat) :
    goodVal (cell g r c) := by
  unfold cell
  rcases getD_mem_or g r [] with hrow | hrow
  · rcases getD_mem_or (g.getD r []) c 0 with hv | hv
    · exact h _ hrow _ hv
    · rw [hv]
      exact Or.inl rfl
  · rw [hrow]
    cases c <;> exact Or.inl rfl

/-- Every output entry of the merge loop is an input entry or the double
of one. -/
theorem mergeRec_vals : ∀ (l : List Nat) (i : Nat), ∀ v ∈ (mergeRec i l).1,
    v ∈ l ∨ ∃ a ∈ l, v = a * 2
  | [], _, v, hv => absurd hv (List.not_mem_nil v)
  | [a], _, v, hv => by
    simp only [mergeRec, List.mem_singleton] at hv
    exact Or.inl (by simp [hv])
  | a :: b :: rest, i, v, hv => by
    by_cases hab : a = b
    · simp only [mergeRec, if_pos hab, List.mem_cons] at hv
      rcases hv with rfl | hv
      · exact Or.inr ⟨a, by simp, rfl⟩
      · rcases mergeRec_vals rest (i + 1) v hv with h1 | ⟨x, hx, rfl⟩
        · exact Or.inl (by simp [h1])
        · exact Or.inr ⟨x, by simp [hx], rfl⟩
    · simp only [mergeRec, if_neg hab, List.mem_cons] at hv
      rcases hv with rfl | hv
      · exact Or.inl (by simp)
      · rcases mergeRec_vals (b :: rest) (i + 1) v hv with h1 | ⟨x, hx, rfl⟩
        · exact Or.inl (List.mem_cons_of_mem a h1)
        · exact Or.inr ⟨x, List.mem_cons_of_mem a hx, rfl⟩

/-- A slide-combine pass preserves goodness of all entries. -/
theorem slide_good (r : List Nat) (h : ∀ v ∈ r, goodVal v) :
    ∀ v ∈ (slideCombineRow r).newRow, goodVal v := by
  intro v hv
  have hrow : (slideCombineRow r).newRow
      = padTo4 (mergeRec 0 (r.filter (fun x => x != 0))).1 := rfl
  rw [hrow] at hv
  rcases List.mem_append.1 hv with hv | hv
  · rcases mergeRec_vals _ 0 v hv with h1 | ⟨x, hx, rfl⟩
    · exact h v (List.mem_of_mem_filter h1)
    · exact goodVal_double x (h x (List.mem_of_mem_filter hx))
  · rw [List.eq_of_mem_replicate hv]
    exact Or.inl rfl

/-- Transposition preserves goodness. -/
theorem gridGood_transposeG (g : Grid) (h : gridGood g) :
    gridGood (transposeG g) := by
  intro row hrow v hv
  obtain ⟨c, _, rfl⟩ := List.mem_map.1 hrow
  obtain ⟨r, _, rfl⟩ := List.mem_map.1 hv
  exact cell_good g h r c

/-- Rowwise goodness lifts through a map. -/
theorem gridGood_map (G : Grid) (f : List Nat → List Nat)
    (h : ∀ r ∈ G, ∀ v ∈ f r, goodVal v) : gridGood (G.map f) := by
  intro row hrow
  obtain ⟨r, hr, rfl⟩ := List.mem_map.1 hrow
  exact h r hr

/-- Every direction core preserves goodness of all cells. -/
theorem moveCore_good (direction : String) (g : Grid) (h : gridGood g) :
    gridGood (moveCore direction g).1 := by
  by_cases d1 : direction = "left"
  · simp only [moveCore, if_pos d1, moveLeftCore_def]
    exact gridGood_map _ _ (fun r hr => slide_good r (h r hr))
  by_cases d2 : direction = "right"
  · simp only [moveCore, if_neg d1, if_pos d2, moveRightCore_def]
    refine gridGood_map _ _ (fun r hr v hv => ?_)
    exact slide_good r.reverse (fun x hx => h r hr x (List.mem_reverse.1 hx))
      v (List.mem_reverse.1 hv)
  by_cases d3 : direction = "up"
  · simp only [moveCore, if_neg d1, if_neg d2, if_pos d3, moveUpCore_def]
    exact gridGood_transposeG _ (gridGood_map _ _
      (fun r hr => slide_good r (gridGood_transposeG g h r hr)))
  by_cases d4 : direction = "down"
  · simp only [moveCore, if_neg d1, if_neg d2, if_neg d3, if_pos d4,
      moveDownCore_def]
    refine gridGood_transposeG _ (gridGood_map _ _ (fun r hr v hv => ?_))
    exact slide_good r.reverse
      (fun x hx => gridGood_transposeG g h r hr x (List.mem_reverse.1 hx))
      v (List.mem_reverse.1 hv)
  · simp only [moveCore, if_neg d1, if_neg d2, if_neg d3, if_neg d4]
    exact h

/-- Writing a good value into a cell preserves goodness. -/
theorem setCell_good (g : Grid) (r c v : Nat) (h : gridGood g)
    (hv : goodVal v) : gridGood (setCell g r c v) := by
  intro row hrow
  rcases List.mem_or_eq_of_mem_set hrow with hin | rfl
  · exact h row hin
  · intro x hx
    rcases List.mem_or_eq_of_mem_set hx with hin | rfl
    · rcases getD_mem_or g r [] with hrm | hrm
      · exact h _ hrm x hin
      · rw [hrm] at hin
        exact absurd hin (List.not_mem_nil x)
    · exact hv

/-- Spawning preserves goodness (it writes a 2 or a 4). -/
theorem addRandomTile_good (g : Grid) (rnd1 rnd2 : Rnd) (h : gridGood g) :
    gridGood (addRandomTile g rnd1 rnd2).1 := by
  by_cases he : (emptyCells g).isEmpty
  · simp only [addRandomTile, he, if_true]
    exact h
  · simp only [addRandomTile, he, if_false, Bool.false_eq_true]
    refine setCell_good _ _ _ _ h ?_
    split
    · exact Or.inr ⟨0, rfl⟩
    · exact Or.inr ⟨1, rfl⟩

/-- Induction along reachability: the current grid and any held snapshot
consist of good values only. -/
theorem reachable_good (s : GameState) (h : Reachable s) :
    gridGood s.grid ∧ ∀ g, s.lastGrid = some g → gridGood g := by
  induction h with
  | init a1 a2 b1 b2 =>
    have h0 : gridGood (List.replicate SIZE (List.replicate SIZE 0)) := by
      intro row hrow v hv
      rw [List.eq_of_mem_replicate hrow] at hv
      rw [List.eq_of_mem_replicate hv]
      exact Or.inl rfl
    refine ⟨addRandomTile_good _ _ _ (addRandomTile_good _ _ _ h0), ?_⟩
    intro g hg
    simp [initGame] at hg
  | move s direction rnd1 rnd2 _ ih =>
    unfold handleMove
    by_cases ht : (s.gameOver || s.gameWon) = true
    · rw [if_pos ht]
      exact ih
    · rw [if_neg ht]
      by_cases hm : (moveCore direction s.grid).2.1 = true
      · rw [if_pos hm]
        constructor
        · rw [(checkGameState_fields _).1]
          exact addRandomTile_good _ _ _ (moveCore_good _ _ ih.1)
        · intro g hg
          rw [(checkGameState_fields _).2.2.1] at hg
          cases hg
          exact ih.1
      · rw [if_neg hm]
        exact ⟨moveCore_good _ _ ih.1, ih.2⟩
  | undo s _ ih =>
    rcases hl : s.lastGrid with _ | g
    · simp only [undoMove, hl]
      refine ⟨ih.1, ?_⟩
      intro g' hg'
      cases hg'
    · simp only [undoMove, hl]
      refine ⟨ih.2 g hl, ?_⟩
      intro g' hg'
      cases hg'

/-- Claim C10: in every reachable state every cell is 0 or a power of two
that is at least 2 (the board starts empty, spawns write 2 or 4, merges
double). -/
theorem reachable_cells_powers (s : GameState) (h : Reachable s)
    (r c : Nat) :
    cell s.grid r c = 0 ∨ ∃ k, cell s.grid r c = 2 ^ (k + 1) :=
  cell_good s.grid (reachable_good s h).1 r c

/-- Witness for C10 at a concrete reachable state and cell. -/
theorem reachable_cells_powers_witness :
    cell (initGame ⟨0, 1⟩ ⟨0, 1⟩ ⟨0, 1⟩ ⟨0, 1⟩).grid 0 0 = 0 ∨
    ∃ k, cell (initGame ⟨0, 1⟩ ⟨0, 1⟩ ⟨0, 1⟩ ⟨0, 1⟩).grid 0 0 = 2 ^ (k + 1) :=
  reachable_cells_powers _ (Reachable.init ⟨0, 1⟩ ⟨0, 1⟩ ⟨0, 1⟩ ⟨0, 1⟩) 0 0

/-! ### Spawn behaviour (claim C7) -/

/-- Observer: the cell `addRandomTile` selects for the first draw
`rnd1 = num/den`, i.e. `empty[Math.floor(rnd1 * empty.length)]`. -/
def spawnPos (g : Grid) (rnd1 : Rnd) : Nat × Nat :=
  (emptyCells g).getD (rnd1.num * (emptyCells g).length / rnd1.den) (0, 0)

/-- Claim C7: `addRandomTile` on a full board is a no-op returning no
position; otherwise, for a first draw `num/den ∈ [0,1)`, it picks the
`⌊draw * L⌋`-th of the `L` empty cells — an in-range index that sweeps all
empty cells as the draw sweeps `[0,1)` — writes 2 exactly when the second
draw is below 0.9 (else 4), and returns the chosen, previously empty,
position.  The last two parts prove the two natural-number encodings used
in `addRandomTile` equal to the rational-valued originals
`Math.floor(q * L)` and `q < 0.9`. -/
theorem addRandomTile_spec :
    (∀ (g : Grid) (rnd1 rnd2 : Rnd), emptyCells g = [] →
      addRandomTile g rnd1 rnd2 = (g, none)) ∧
    (∀ (g : Grid) (rnd1 rnd2 : Rnd), emptyCells g ≠ [] →
      rnd1.num < rnd1.den →
      rnd1.num * (emptyCells g).length / rnd1.den < (emptyCells g).length ∧
      spawnPos g rnd1 ∈ emptyCells g ∧
      cell g (spawnPos g rnd1).1 (spawnPos g rnd1).2 = 0 ∧
      addRandomTile g rnd1 rnd2 =
        (setCell g (spawnPos g rnd1).1 (spawnPos g rnd1).2
          (if 10 * rnd2.num < 9 * rnd2.den then 2 else 4),
          some (spawnPos g rnd1))) ∧
    (∀ L j : Nat, j < L → ∃ n d : Nat, n < d ∧ n * L / d = j) ∧
    (∀ n d L : Nat,
      (n * L / d : Nat) = Int.toNat ⌊((n : ℚ) / d) * L⌋) ∧
    (∀ n d : Nat, 0 < d → ((10 * n < 9 * d) ↔ ((n : ℚ) / d < 9 / 10))) := by
  refine ⟨?_, ?_, ?_, ?_, ?_⟩
  · intro g rnd1 rnd2 he
    unfold addRandomTile
    rw [if_pos (by rw [he]; rfl)]
  · intro g rnd1 rnd2 he hq
    have he' : ¬(emptyCells g).isEmpty = true := by
      rcases hl : emptyCells g with _ | ⟨x, t⟩
      · exact absurd hl he
      · simp
    have hlen : 0 < (emptyCells g).length := by
      rcases hl : emptyCells g with _ | ⟨x, t⟩
      · exact absurd hl he
      · simp
    have hidx : rnd1.num * (emptyCells g).length / rnd1.den
        < (emptyCells g).length := by
      have hd : 0 < rnd1.den := by omega
      rw [Nat.div_lt_iff_lt_mul hd]
      calc rnd1.num * (emptyCells g).length
          < rnd1.den * (emptyCells g).length :=
            (Nat.mul_lt_mul_right hlen).2 hq
        _ = (emptyCells g).length * rnd1.den := Nat.mul_comm _ _
    have hmem : spawnPos g rnd1 ∈ emptyCells g := getD_mem _ _ _ hidx
    refine ⟨hidx, hmem, (emptyCells_mem g _ hmem).2.2, ?_⟩
    unfold addRandomTile
    rw [if_neg he']
    rfl
  · intro L j hj
    exact ⟨j, L, hj, Nat.mul_div_cancel j (by omega)⟩
  · intro n d L
    by_cases hd : d = 0
    · subst hd
      simp
    · have h1 : ((n : ℚ) / d) * L = ((n * L : Nat) : ℚ) / (d : ℚ) := by
        push_cast
        ring
      rw [h1, Int.floor_toNat, Nat.floor_div_nat, Nat.floor_natCast]
  · intro n d hd
    rw [div_lt_div_iff₀ (by positivity) (by norm_num)]
    norm_cast
    omega

/-- Witness for C7: the second conjunct applied to the all-zero board with
first draw 1/2 (picks the 8th of 16 empty cells) and second draw 19/20
(spawning a 4). -/
def gEmpty : Grid := List.replicate 4 (List.replicate 4 0)

theorem addRandomTile_spec_witness :
    (1 : Nat) * (emptyCells gEmpty).length / 2 < (emptyCells gEmpty).length ∧
    spawnPos gEmpty ⟨1, 2⟩ ∈ emptyCells gEmpty ∧
    cell gEmpty (spawnPos gEmpty ⟨1, 2⟩).1 (spawnPos gEmpty ⟨1, 2⟩).2 = 0 ∧
    addRandomTile gEmpty ⟨1, 2⟩ ⟨19, 20⟩ =
      (setCell gEmpty (spawnPos gEmpty ⟨1, 2⟩).1 (spawnPos gEmpty ⟨1, 2⟩).2
        (if 10 * (19 : Nat) < 9 * 20 then 2 else 4),
        some (spawnPos gEmpty ⟨1, 2⟩)) :=
  addRandomTile_spec.2.1 gEmpty ⟨1, 2⟩ ⟨19, 20⟩ (by decide) (by decide)

end Game2048
